import Mathlib

/-!
Shallow embedding of the NavCity analysis pipeline (code/metrics.py,
code/post_processing.py) and proofs about its metric semantics.

Conventions of the embedding:
- pandas rows become Lean lists of structures; coordinates and times are `ℚ`
  (the raw logs carry exact decimal values; equality-based grouping in the
  source is exact float equality, modelled as exact `ℚ` equality);
- Euclidean distances (`np.sqrt`) are real-valued, so the distance-flavoured
  metrics live in `ℝ`;
- `pandas.groupby` iterates groups in ascending sorted key order, modelled
  with `List.insertionSort`;
- `DataFrame.drop_duplicates(keep := first)` and the `seen`-set loop of
  `calculate_all_metrics` both keep the first occurrence of each key, in
  order of first appearance, modelled by `dedupFirst`;
- float `NaN` cells of the merged/averaged tables are modelled as `none` in
  `Option ℚ`, with `NaN`-propagating subtraction `osub` and the
  `NaN`-skipping column mean `colMean` (pandas `Series.mean`).
-/

namespace NavCity

/-- One normalized sample of `process_raw_data`'s output: destination label,
position, elapsed time and the derived (clamped) time delta.  The angle
columns are carried along by the source but feed none of the metrics, so the
embedding omits them. -/
structure Sample where
  targetName : String
  x : ℚ
  z : ℚ
  time : ℚ
  timeDelta : ℚ
deriving DecidableEq

/-- Starting-position x coordinate (`START_X` in metrics.py). -/
def START_X : ℚ := 0

/-- Starting-position z coordinate (`START_Z = -4.1` in metrics.py). -/
def START_Z : ℚ := -(41 / 10)

/-- The `(x, z)` coordinate pairs of a group, in sample order. -/
def positions (g : List Sample) : List (ℚ × ℚ) :=
  g.map (fun s => (s.x, s.z))

/-- `Total_Time`: sum of the group's `Time_Diff` column. -/
def totalTime (g : List Sample) : ℚ :=
  (g.map Sample.timeDelta).sum

/-- The mask `(group['X'] == START_X) & (group['Z'] == START_Z)`. -/
def atStart (s : Sample) : Bool :=
  decide (s.x = START_X ∧ s.z = START_Z)

/-- `Orientation_Time`: sum of `Time_Diff` over the samples at the starting
position. -/
def orientationTime (g : List Sample) : ℚ :=
  ((g.filter atStart).map Sample.timeDelta).sum

/-- `Navigation_Time = Total_Time - Orientation_Time`. -/
def navigationTime (g : List Sample) : ℚ :=
  totalTime g - orientationTime g

/-- Keep the first occurrence of each element, given the elements already
seen; this is the `seen`-set loop of `calculate_all_metrics` and also the
semantics of `drop_duplicates(keep := first)`. -/
def dedupFirstAux {α : Type} [DecidableEq α] (seen : List α) : List α → List α
  | [] => []
  | a :: l => if a ∈ seen then dedupFirstAux seen l else a :: dedupFirstAux (a :: seen) l

/-- First-occurrence deduplication, preserving order of first appearance. -/
def dedupFirst {α : Type} [DecidableEq α] (l : List α) : List α :=
  dedupFirstAux [] l

/-- Euclidean distance `np.sqrt(dx**2 + dz**2)` between two coordinate
pairs. -/
noncomputable def euclid (p q : ℚ × ℚ) : ℝ :=
  Real.sqrt (((q.1 - p.1) ^ 2 + (q.2 - p.2) ^ 2 : ℚ) : ℝ)

/-- Distances between consecutive entries of a position list (the per-hop
distances of the deduplicated path). -/
noncomputable def teleportDists (l : List (ℚ × ℚ)) : List ℝ :=
  List.zipWith euclid l l.tail

/-- `Distance`: sum of Euclidean distances between consecutive
first-occurrence-deduplicated positions. -/
noncomputable def distance (g : List Sample) : ℝ :=
  (teleportDists (dedupFirst (positions g))).sum

/-- `Speed`: `Distance / Navigation_Time` when `Navigation_Time > 0`,
else `0`. -/
noncomputable def speed (g : List Sample) : ℝ :=
  if 0 < navigationTime g then distance g / (navigationTime g : ℝ) else 0

/-- `Teleportations`: number of distinct `(x, z)` pairs in the group
(`drop_duplicates().shape[0]`). -/
def teleportCount (g : List Sample) : ℕ :=
  (dedupFirst (positions g)).length

/-- `Mean_Teleport_Distance`: mean of the consecutive distances between
first-occurrence-deduplicated positions, `0` when fewer than two distinct
positions exist. -/
noncomputable def meanTeleportDistance (g : List Sample) : ℝ :=
  let l := dedupFirst (positions g)
  if 1 < l.length then (teleportDists l).sum / ((l.length : ℝ) - 1) else 0

/-- Lexicographic order on coordinate pairs: the order in which
`pandas.groupby(['X', 'Z'])` yields its group keys. -/
def lexLe (p q : ℚ × ℚ) : Prop :=
  p.1 < q.1 ∨ (p.1 = q.1 ∧ p.2 ≤ q.2)

instance : DecidableRel lexLe := fun p q => by
  unfold lexLe
  exact inferInstance

instance : IsTrans (ℚ × ℚ) lexLe :=
  ⟨by
    rintro a b c (h1 | ⟨h1, h1'⟩) (h2 | ⟨h2, h2'⟩)
    · exact Or.inl (h1.trans h2)
    · exact Or.inl (h2 ▸ h1)
    · exact Or.inl (h1 ▸ h2)
    · exact Or.inr ⟨h1.trans h2, h1'.trans h2'⟩⟩

instance : IsTotal (ℚ × ℚ) lexLe :=
  ⟨by
    intro a b
    rcases lt_trichotomy a.1 b.1 with h | h | h
    · exact Or.inl (Or.inl h)
    · rcases le_total a.2 b.2 with h2 | h2
      · exact Or.inl (Or.inr ⟨h, h2⟩)
      · exact Or.inr (Or.inr ⟨h.symm, h2⟩)
    · exact Or.inr (Or.inl h)⟩

instance : IsAntisymm (ℚ × ℚ) lexLe :=
  ⟨by
    rintro ⟨a1, a2⟩ ⟨b1, b2⟩ (h1 | ⟨h1, h1'⟩) (h2 | ⟨h2, h2'⟩) <;>
      simp_all [lexLe]
    · exact absurd h2 (not_lt.mpr h1.le)
    · exact le_antisymm h1' h2'⟩

/-- The distinct group keys of `group.groupby(['X', 'Z'])`, listed by first
encounter. -/
def distinctKeys (g : List Sample) : List (ℚ × ℚ) :=
  dedupFirst (positions g)

/-- The group keys in the ascending order `pandas.groupby` iterates them. -/
def sortedKeys (g : List Sample) : List (ℚ × ℚ) :=
  List.insertionSort lexLe (distinctKeys g)

/-- The dwell bucket of one key: all samples of the group at that coordinate,
in original order. -/
def bucketOf (g : List Sample) (k : ℚ × ℚ) : List Sample :=
  g.filter (fun s => decide ((s.x, s.z) = k))

/-- Dwell of one bucket: time of its last sample minus time of its first
sample (`pos_group['Time'].iloc[-1] - pos_group['Time'].iloc[0]`). -/
def dwellOf (g : List Sample) (k : ℚ × ℚ) : ℚ :=
  (((bucketOf g k).getLast?).map Sample.time).getD 0 -
    (((bucketOf g k).head?).map Sample.time).getD 0

/-- Arithmetic mean of a list of rationals (`np.mean`). -/
def listMean (l : List ℚ) : ℚ :=
  l.sum / (l.length : ℚ)

/-- The `dwell_times` list built by the groupby loop, in sorted key order. -/
def dwellTimes (g : List Sample) : List ℚ :=
  (sortedKeys g).map (dwellOf g)

/-- `Mean_Dwell`: mean of `dwell_times[1:]` when more than one bucket exists,
else `0`. -/
def meanDwell (g : List Sample) : ℚ :=
  if 1 < (dwellTimes g).length then listMean (dwellTimes g).tail else 0

/-- Mean dwell as the specification's words describe it: dwell buckets taken
in order of first encounter, the first-encountered bucket excluded, the rest
averaged; `0` when fewer than two buckets exist.  Stated only to compare with
the source's `meanDwell`, which iterates buckets in sorted key order. -/
def meanDwellSpecFirstEncounter (g : List Sample) : ℚ :=
  let dts := (distinctKeys g).map (dwellOf g)
  if 1 < dts.length then listMean dts.tail else 0

section DedupLemmas

variable {α : Type} [DecidableEq α]

theorem mem_dedupFirstAux {x : α} :
    ∀ (l seen : List α), x ∈ dedupFirstAux seen l ↔ x ∈ l ∧ x ∉ seen := by
  intro l
  induction l with
  | nil => intro seen; simp [dedupFirstAux]
  | cons a l ih =>
    intro seen
    by_cases h : a ∈ seen
    · simp only [dedupFirstAux, if_pos h, ih, List.mem_cons]
      constructor
      · rintro ⟨h1, h2⟩
        exact ⟨Or.inr h1, h2⟩
      · rintro ⟨h1 | h1, h2⟩
        · exact absurd (h1 ▸ h) h2
        · exact ⟨h1, h2⟩
    · simp only [dedupFirstAux, if_neg h, List.mem_cons, ih]
      constructor
      · rintro (rfl | ⟨h1, h2⟩)
        · exact ⟨Or.inl rfl, h⟩
        · exact ⟨Or.inr h1, fun hx => h2 (Or.inr hx)⟩
      · rintro ⟨rfl | h1, h2⟩
        · exact Or.inl rfl
        · by_cases hxa : x = a
          · exact Or.inl hxa
          · exact Or.inr ⟨h1, by simp [hxa, h2]⟩

theorem nodup_dedupFirstAux :
    ∀ (l seen : List α), (dedupFirstAux seen l).Nodup := by
  intro l
  induction l with
  | nil => intro seen; simp [dedupFirstAux]
  | cons a l ih =>
    intro seen
    by_cases h : a ∈ seen
    · simpa only [dedupFirstAux, if_pos h] using ih seen
    · simp only [dedupFirstAux, if_neg h, List.nodup_cons]
      refine ⟨fun hmem => ?_, ih (a :: seen)⟩
      exact ((mem_dedupFirstAux l (a :: seen)).mp hmem).2 (List.mem_cons_self a seen)

theorem mem_dedupFirst {x : α} {l : List α} : x ∈ dedupFirst l ↔ x ∈ l := by
  simp [dedupFirst, mem_dedupFirstAux]

theorem nodup_dedupFirst (l : List α) : (dedupFirst l).Nodup :=
  nodup_dedupFirstAux l []

theorem dedupFirst_toFinset (l : List α) : (dedupFirst l).toFinset = l.toFinset := by
  ext x
  simp [List.mem_toFinset, mem_dedupFirst]

end DedupLemmas

/-- One row of `calculate_all_metrics`'s output. -/
structure StatRecord where
  totalTime : ℚ
  orientationTime : ℚ
  navigationTime : ℚ
  distance : ℝ
  speed : ℝ
  meanDwell : ℚ
  teleportations : ℕ
  meanTeleportDistance : ℝ

/-- All metrics of one destination group. -/
noncomputable def computeRecord (g : List Sample) : StatRecord :=
  ⟨totalTime g, orientationTime g, navigationTime g, distance g, speed g,
    meanDwell g, teleportCount g, meanTeleportDistance g⟩

/-- Target names in canonical order (`TARGET_ORDER` in metrics.py; note the
trailing space in the second entry, present in the original data). -/
def TARGET_ORDER : List String :=
  ["Automobile shop",
   "Police station ",
   "Fire Station",
   "Bank",
   "Pawn Shop",
   "Pizzeria",
   "Quattroki Restaurant",
   "High School"]

/-- The `Target_Name` column of the incoming data. -/
def targetNames (data : List Sample) : List String :=
  data.map Sample.targetName

/-- The destination group of one target name, in original sample order. -/
def groupFor (data : List Sample) (t : String) : List Sample :=
  data.filter (fun s => decide (s.targetName = t))

/-- The distinct target names in the ascending order `data.groupby` iterates
them. -/
def sortedNames (data : List Sample) : List String :=
  List.insertionSort (fun a b => a ≤ b) (dedupFirst (targetNames data))

/-- The rows of `df_results` before reindexing: one record per target name
present, in groupby (sorted-name) order. -/
noncomputable def groupedResults (data : List Sample) : List (String × StatRecord) :=
  (sortedNames data).map (fun n => (n, computeRecord (groupFor data n)))

/-- `calculate_all_metrics`: per-target records, reindexed to the canonical
target order restricted to the targets present in the data. -/
noncomputable def calculateAllMetrics (data : List Sample) : List (String × StatRecord) :=
  let rows := groupedResults data
  let available := TARGET_ORDER.filter (fun t => decide (t ∈ rows.map Prod.fst))
  available.filterMap (fun t => (rows.find? (fun r => decide (r.1 = t))).map (fun r => (t, r.2)))

/-- One raw data row before time deltas are attached (the columns of the raw
CSV that feed the metrics). -/
structure RawRow where
  targetName : String
  x : ℚ
  z : ℚ
  time : ℚ
deriving DecidableEq

/-- The derived `Time_Diff` column:
`df['Time'].diff().clip(lower := 0).fillna(0)` — the first row's delta is `0`
and negative raw deltas are clamped to `0`. -/
def mkTimeDeltas : List ℚ → List ℚ
  | [] => []
  | t :: ts => 0 :: List.zipWith (fun a b => max (b - a) 0) (t :: ts) ts

/-- Attach the derived time deltas to the raw rows. -/
def attachDeltas (rows : List RawRow) : List Sample :=
  List.zipWith (fun (r : RawRow) (d : ℚ) => ⟨r.targetName, r.x, r.z, r.time, d⟩)
    rows (mkTimeDeltas (rows.map RawRow.time))

/-- The Sample Normalizer: derive time deltas over the whole session, then
drop the `Mission complete` sentinel rows. -/
def normalize (rows : List RawRow) : List Sample :=
  (attachDeltas rows).filter (fun s => decide (s.targetName ≠ "Mission complete"))

/-- The metric columns of the merged table, as an enumerated column name. -/
inductive Column where
  | totalTime
  | orientationTime
  | navigationTime
  | distance
  | speed
  | meanDwell
  | teleportations
  | meanTeleportDistance
deriving DecidableEq

/-- One row of the merged results table.  The metric cells are `Option ℚ`:
`none` models a float `NaN` cell. -/
structure MergedRow where
  participant : String
  blockNum : ℕ
  targetName : String
  vals : Column → Option ℚ

/-- The row mask of `fix_erroneous_data`: participant, block number and
target name all match. -/
def keyMatches (p : String) (b : ℕ) (t : String) (r : MergedRow) : Bool :=
  decide (r.participant = p) && decide (r.blockNum = b) && decide (r.targetName = t)

/-- Float subtraction on possibly-`NaN` cells: `NaN` propagates. -/
def osub : Option ℚ → Option ℚ → Option ℚ
  | some a, some b => some (a - b)
  | _, _ => none

/-- `fix_erroneous_data` (the merged-table part, post_processing.py lines
104-123): when some row matches the key, decrement `Total_Time` of every
matching row by the first matching row's `Orientation_Time` when that is the
column being fixed, then set the fixed column of every matching row to `NaN`;
when no row matches, leave the table unchanged. -/
def fixErroneousData (rows : List MergedRow) (p : String) (b : ℕ) (t : String)
    (col : Column) : List MergedRow :=
  if rows.any (keyMatches p b t) then
    let old : Option ℚ := (rows.find? (keyMatches p b t)).bind
      (fun r => r.vals Column.orientationTime)
    rows.map (fun r =>
      if keyMatches p b t r then
        let r1 := if col = Column.orientationTime then
            { r with
                vals := Function.update r.vals Column.totalTime
                  (osub (r.vals Column.totalTime) old) }
          else r
        { r1 with vals := Function.update r1.vals col none }
      else r)
  else rows

/-- `pandas.Series.mean` over a column with possible `NaN` cells: `NaN`
entries are skipped; the mean of no defined entries is `NaN`. -/
def colMean (xs : List (Option ℚ)) : Option ℚ :=
  let v := xs.filterMap id
  if v.isEmpty then none else some (v.sum / (v.length : ℚ))

/-- The per-(participant, block) averaging step of `average_metrics`:
`row[col] = df[col].mean()` independently for every metric column of the
block-results table. -/
def averageRow (rows : List (Column → Option ℚ)) : Column → Option ℚ :=
  fun c => colMean (rows.map (fun r => r c))

/-- The example group of the spec: three samples at `(0, -4.1)`, then two at
`(5, 5)`, then one more at `(5, 5)`, then one at `(0, -4.1)`, with uniform
time deltas of `1`. -/
def exampleGroupC1 : List Sample :=
  [⟨"Bank", 0, -(41 / 10), 0, 1⟩,
   ⟨"Bank", 0, -(41 / 10), 1, 1⟩,
   ⟨"Bank", 0, -(41 / 10), 2, 1⟩,
   ⟨"Bank", 5, 5, 3, 1⟩,
   ⟨"Bank", 5, 5, 4, 1⟩,
   ⟨"Bank", 5, 5, 5, 1⟩,
   ⟨"Bank", 0, -(41 / 10), 6, 1⟩]

/-- A group whose first-encountered position `(5, 5)` is lexicographically
larger than the later position `(0, 0)`: the `(5, 5)` bucket dwells for `10`
time units, the `(0, 0)` bucket for `2`. -/
def dwellGroupC2 : List Sample :=
  [⟨"Bank", 5, 5, 0, 0⟩,
   ⟨"Bank", 0, 0, 1, 1⟩,
   ⟨"Bank", 0, 0, 3, 2⟩,
   ⟨"Bank", 5, 5, 10, 7⟩]

/-- A group visiting exactly one distinct position. -/
def singlePosGroup : List Sample :=
  [⟨"Bank", 1, 2, 0, 0⟩, ⟨"Bank", 1, 2, 1, 1⟩]

/-- A group spending all its time at the starting position, so that its
navigation time is zero. -/
def zeroNavGroup : List Sample :=
  [⟨"Bank", 0, -(41 / 10), 0, 0⟩, ⟨"Bank", 0, -(41 / 10), 1, 1⟩]

/-- A group with strictly positive navigation time. -/
def posNavGroup : List Sample :=
  [⟨"Bank", 0, 0, 0, 0⟩, ⟨"Bank", 1, 0, 1, 1⟩]

/-- Data containing the canonical destinations `Fire Station` and
`Automobile shop`, discovered in the opposite of canonical order. -/
def twoTargetData : List Sample :=
  [⟨"Fire Station", 3, 4, 0, 0⟩, ⟨"Automobile shop", 1, 2, 1, 1⟩]

/-- A block-results row whose `Orientation_Time` cell is `NaN` and whose
other cells are `2`. -/
def rowWithNaN : Column → Option ℚ := fun c =>
  match c with
  | Column.orientationTime => none
  | _ => some 2

/-- A block-results row with every cell equal to `4`. -/
def rowFull : Column → Option ℚ := fun _ => some 4

/-- A merged-results row for participant `BNC39`, block 1, `Pawn Shop`. -/
def mergedRowA : MergedRow := ⟨"BNC39", 1, "Pawn Shop", fun _ => some 10⟩

/-- A merged-results row for a different participant. -/
def mergedRowB : MergedRow := ⟨"BNC01", 2, "Bank", fun _ => some 3⟩

section MetricLemmas

theorem euclid_nonneg (p q : ℚ × ℚ) : 0 ≤ euclid p q :=
  Real.sqrt_nonneg _

theorem teleportDists_sum_nonneg : ∀ l : List (ℚ × ℚ), 0 ≤ (teleportDists l).sum
  | [] => by simp [teleportDists]
  | [_] => by simp [teleportDists]
  | p :: q :: l => by
    have ih := teleportDists_sum_nonneg (q :: l)
    have h0 := euclid_nonneg p q
    show 0 ≤ (euclid p q :: teleportDists (q :: l)).sum
    rw [List.sum_cons]
    exact add_nonneg h0 ih

end MetricLemmas

/-- C3: for every destination group, `Total_Time` equals
`Orientation_Time + Navigation_Time` exactly, where the total time is the sum
of the group's time deltas and the orientation time the sum of the deltas of
the samples sitting exactly at the starting coordinates — the identity holds
with no floating-point error in the embedding's exact arithmetic. -/
theorem totalTime_eq_orientation_add_navigation (g : List Sample) :
    totalTime g = orientationTime g + navigationTime g := by
  rw [navigationTime]
  ring

/-- C4: for every destination group, the distance — the sum of Euclidean
distances between consecutive first-occurrence-deduplicated positions — is
non-negative, and it is zero whenever the group visits exactly one distinct
position. -/
theorem distance_nonneg_and_zero_on_single_position (g : List Sample) :
    0 ≤ distance g ∧ (teleportCount g = 1 → distance g = 0) := by
  constructor
  · exact teleportDists_sum_nonneg _
  · intro h
    unfold teleportCount at h
    obtain ⟨a, ha⟩ := List.length_eq_one.mp h
    simp [distance, ha, teleportDists]

/-- Witness for C4 at a concrete group with exactly one distinct position. -/
theorem distance_nonneg_and_zero_witness :
    0 ≤ distance singlePosGroup ∧ distance singlePosGroup = 0 :=
  ⟨(distance_nonneg_and_zero_on_single_position singlePosGroup).1,
   (distance_nonneg_and_zero_on_single_position singlePosGroup).2
     (by norm_num [teleportCount, dedupFirst, dedupFirstAux, positions, singlePosGroup])⟩

/-- C6: for every destination group, the speed equals
`Distance / Navigation_Time` when the navigation time is positive and is
exactly `0` whenever the navigation time is non-positive, whatever the
distance; `speed` is a total function, so no division fault can occur. -/
theorem speed_zero_or_quotient (g : List Sample) :
    (navigationTime g ≤ 0 → speed g = 0) ∧
      (0 < navigationTime g → speed g = distance g / (navigationTime g : ℝ)) := by
  constructor
  · intro h
    rw [speed, if_neg (not_lt.mpr h)]
  · intro h
    rw [speed, if_pos h]

/-- Witness for C6 at a zero-navigation-time group and at a
positive-navigation-time group. -/
theorem speed_zero_or_quotient_witness :
    speed zeroNavGroup = 0 ∧
      speed posNavGroup = distance posNavGroup / (navigationTime posNavGroup : ℝ) :=
  ⟨(speed_zero_or_quotient zeroNavGroup).1
     (by norm_num [navigationTime, totalTime, orientationTime, atStart, START_X, START_Z,
       zeroNavGroup, List.filter]),
   (speed_zero_or_quotient posNavGroup).2
     (by norm_num [navigationTime, totalTime, orientationTime, atStart, START_X, START_Z,
       posNavGroup, List.filter])⟩

/-- C7: for every destination group, the teleport count equals the number of
distinct `(x, z)` pairs occurring in the group — the cardinality of the set
of positions, which is independent of repetition counts and of sample
order. -/
theorem teleportCount_eq_card_distinct (g : List Sample) :
    teleportCount g = (positions g).toFinset.card := by
  rw [teleportCount, ← dedupFirst_toFinset]
  exact (List.toFinset_card_of_nodup (nodup_dedupFirst _)).symm

/-- C1 counterexample: on the spec's example group the code's first-occurrence
deduplication drops the final return to `(0, -4.1)` (that pair already
occurred first), so the Metric Engine returns `teleport_count = 2`, not `3`,
and the deduplicated position sequence is `[(0, -4.1), (5, 5)]`, not the
claimed three-entry sequence. -/
theorem exampleGroup_teleportCount_ne_three :
    teleportCount exampleGroupC1 = 2 ∧ teleportCount exampleGroupC1 ≠ 3 ∧
      dedupFirst (positions exampleGroupC1) = [(0, -(41 / 10)), (5, 5)] := by
  norm_num [teleportCount, dedupFirst, dedupFirstAux, positions, exampleGroupC1]

/-- C1 (amended): on the spec's example group the Metric Engine returns
`teleport_count = 2`, the distinct-position sequence by first occurrence
`[(0, -4.1), (5, 5)]`, `distance = dist((0, -4.1), (5, 5))` (a single hop),
and `mean_teleport_distance = dist((0, -4.1), (5, 5))` averaged over that one
hop. -/
theorem exampleGroup_metrics :
    teleportCount exampleGroupC1 = 2 ∧
      dedupFirst (positions exampleGroupC1) = [(0, -(41 / 10)), (5, 5)] ∧
      distance exampleGroupC1 = euclid (0, -(41 / 10)) (5, 5) ∧
      meanTeleportDistance exampleGroupC1 = euclid (0, -(41 / 10)) (5, 5) := by
  have hd : dedupFirst (positions exampleGroupC1) = [(0, -(41 / 10)), (5, 5)] := by
    norm_num [dedupFirst, dedupFirstAux, positions, exampleGroupC1]
  refine ⟨?_, hd, ?_, ?_⟩
  · rw [teleportCount, hd]
    rfl
  · rw [distance, hd]
    show euclid (0, -(41 / 10)) (5, 5) + (0 : ℝ) = euclid (0, -(41 / 10)) (5, 5)
    rw [add_zero]
  · rw [meanTeleportDistance]
    rw [hd]
    norm_num [teleportDists]

/-- C2 counterexample: on a group that first visits `(5, 5)` (dwell `10`) and
then `(0, 0)` (dwell `2`), the code's `groupby` iterates buckets in ascending
key order, so the excluded bucket is the lexicographically smallest `(0, 0)`,
not the first-encountered starting position `(5, 5)`: the code returns
`mean_dwell = 10` where the claimed first-encounter exclusion yields `2`. -/
theorem meanDwell_ne_first_encounter_exclusion :
    meanDwell dwellGroupC2 = 10 ∧
      meanDwellSpecFirstEncounter dwellGroupC2 = 2 ∧
      meanDwell dwellGroupC2 ≠ meanDwellSpecFirstEncounter dwellGroupC2 := by
  norm_num [meanDwell, meanDwellSpecFirstEncounter, dwellTimes, sortedKeys, distinctKeys,
    dedupFirst, dedupFirstAux, positions, dwellGroupC2, dwellOf, bucketOf, listMean,
    List.insertionSort, List.orderedInsert, lexLe, List.filter_cons, List.filter_nil,
    List.getLast?_cons_cons, List.getLast?_singleton, decide_eq_true_eq, Prod.mk.injEq,
    Prod.ext_iff, Prod.fst_zero, Prod.snd_zero]

/-- C2 (amended): `mean_dwell` partitions the group's samples by distinct
`(x, z)` value into dwell buckets (dwell = time of last sample minus time of
first sample per bucket), but the buckets are iterated in ascending
lexicographic key order — `pandas.groupby` sorts its keys — so the excluded
bucket is the one whose key is the lexicographic minimum of the distinct
positions, not the first-encountered bucket; the remaining buckets' dwells
are averaged, and the result is `0` when fewer than two buckets exist. -/
theorem meanDwell_sorted_key_exclusion (g : List Sample) :
    ((distinctKeys g).length < 2 → meanDwell g = 0) ∧
      (∀ m : ℚ × ℚ, m ∈ distinctKeys g → (∀ k ∈ distinctKeys g, lexLe m k) →
        2 ≤ (distinctKeys g).length →
        meanDwell g =
          (((distinctKeys g).filter (fun k => decide (k ≠ m))).map (dwellOf g)).sum /
            (((distinctKeys g).length : ℚ) - 1)) := by
  have hperm : List.Perm (sortedKeys g) (distinctKeys g) := List.perm_insertionSort _ _
  have hlen : (sortedKeys g).length = (distinctKeys g).length := hperm.length_eq
  have hlen2 : (dwellTimes g).length = (distinctKeys g).length := by
    rw [dwellTimes, List.length_map, hlen]
  constructor
  · intro h
    have hno : ¬ 1 < (dwellTimes g).length := by omega
    rw [meanDwell, if_neg hno]
  · intro m hm hmin h2
    have hnd : (distinctKeys g).Nodup := nodup_dedupFirst _
    have hsorted : List.Sorted lexLe (sortedKeys g) :=
      List.sorted_insertionSort lexLe (distinctKeys g)
    obtain ⟨a, rest, hs⟩ : ∃ a rest, sortedKeys g = a :: rest := by
      cases hq : sortedKeys g with
      | nil =>
        rw [hq] at hlen
        simp at hlen
        omega
      | cons a rest => exact ⟨a, rest, rfl⟩
    have hsorted' : List.Sorted lexLe (a :: rest) := hs ▸ hsorted
    have ha_least : ∀ k ∈ a :: rest, lexLe a k := by
      intro k hk
      rcases List.mem_cons.mp hk with rfl | hk'
      · exact Or.inr ⟨rfl, le_refl _⟩
      · exact (List.sorted_cons.mp hsorted').1 k hk'
    have ham : m = a := by
      have hma : m ∈ a :: rest := by
        rw [← hs]
        exact hperm.mem_iff.mpr hm
      have h1 : lexLe a m := ha_least m hma
      have hak : a ∈ distinctKeys g := by
        apply hperm.mem_iff.mp
        rw [hs]
        exact List.mem_cons_self a rest
      exact IsAntisymm.antisymm m a (hmin a hak) h1
    subst ham
    have hnda : (m :: rest).Nodup := by
      rw [← hs]
      exact hperm.nodup_iff.mpr hnd
    have hnotmem : m ∉ rest := (List.nodup_cons.mp hnda).1
    have hfa : (m :: rest).filter (fun k => decide (k ≠ m)) = rest := by
      have hself : rest.filter (fun k => decide (k ≠ m)) = rest :=
        List.filter_eq_self.mpr
          (fun k hk => decide_eq_true (fun h : k = m => hnotmem (h ▸ hk)))
      rw [List.filter_cons]
      simp [hself]
      intro a b hab h
      exact hnotmem (h ▸ hab)
    have hrest_perm : List.Perm rest ((distinctKeys g).filter (fun k => decide (k ≠ m))) := by
      have hfil := (hs ▸ hperm).filter (fun k => decide (k ≠ m))
      rw [hfa] at hfil
      exact hfil
    have hsum : (rest.map (dwellOf g)).sum =
        (((distinctKeys g).filter (fun k => decide (k ≠ m))).map (dwellOf g)).sum :=
      (hrest_perm.map (dwellOf g)).sum_eq
    have hrl : rest.length + 1 = (distinctKeys g).length := by
      have h := hlen
      rw [hs] at h
      simpa using h
    have hcast : ((rest.length : ℚ)) = ((distinctKeys g).length : ℚ) - 1 := by
      have h : ((rest.length : ℚ)) + 1 = ((distinctKeys g).length : ℚ) := by
        exact_mod_cast congrArg (fun n : ℕ => (n : ℚ)) hrl
      linarith
    have hdt : dwellTimes g = dwellOf g m :: rest.map (dwellOf g) := by
      rw [dwellTimes, hs, List.map_cons]
    have hpos : 1 < (dwellTimes g).length := by omega
    rw [meanDwell, if_pos hpos, hdt, List.tail_cons, listMean, hsum, List.length_map, hcast]

/-- Witness for C2 (amended) at a single-position group (fewer than two
buckets) and at a group whose lexicographically least key is `(0, 0)`. -/
theorem meanDwell_sorted_key_exclusion_witness :
    meanDwell singlePosGroup = 0 ∧
      meanDwell dwellGroupC2 =
        (((distinctKeys dwellGroupC2).filter
            (fun k => decide (k ≠ ((0 : ℚ), (0 : ℚ))))).map (dwellOf dwellGroupC2)).sum /
          (((distinctKeys dwellGroupC2).length : ℚ) - 1) :=
  ⟨(meanDwell_sorted_key_exclusion singlePosGroup).1
     (by norm_num [distinctKeys, dedupFirst, dedupFirstAux, positions, singlePosGroup]),
   (meanDwell_sorted_key_exclusion dwellGroupC2).2 (0, 0)
     (by norm_num [distinctKeys, dedupFirst, dedupFirstAux, positions, dwellGroupC2,
       Prod.ext_iff, Prod.fst_zero, Prod.snd_zero])
     (by
       have hdk : distinctKeys dwellGroupC2 = [(5, 5), (0, 0)] := by
         norm_num [distinctKeys, dedupFirst, dedupFirstAux, positions, dwellGroupC2,
           Prod.ext_iff, Prod.fst_zero, Prod.snd_zero]
       rw [hdk]
       intro k hk
       rcases List.mem_cons.mp hk with rfl | hk'
       · exact Or.inl (by norm_num)
       · rcases List.mem_cons.mp hk' with rfl | hk''
         · exact Or.inr ⟨rfl, le_refl _⟩
         · exact absurd hk'' (List.not_mem_nil k))
     (by
       have hdk : distinctKeys dwellGroupC2 = [(5, 5), (0, 0)] := by
         norm_num [distinctKeys, dedupFirst, dedupFirstAux, positions, dwellGroupC2,
           Prod.ext_iff, Prod.fst_zero, Prod.snd_zero]
       rw [hdk]
       norm_num)⟩

section CanonicalOrderLemmas

theorem mem_sortedNames {data : List Sample} {t : String} :
    t ∈ sortedNames data ↔ t ∈ targetNames data := by
  rw [sortedNames, (List.perm_insertionSort _ _).mem_iff]
  exact mem_dedupFirst

theorem map_fst_groupedResults (data : List Sample) :
    (groupedResults data).map Prod.fst = sortedNames data := by
  rw [groupedResults, List.map_map]
  exact List.map_id _

theorem find?_fst_eq {β : Type} :
    ∀ (rows : List (String × β)) (t : String), t ∈ rows.map Prod.fst →
      ∃ b, rows.find? (fun r => decide (r.1 = t)) = some (t, b) := by
  intro rows
  induction rows with
  | nil => intro t h; simp at h
  | cons r rows ih =>
    intro t h
    by_cases hr : r.1 = t
    · refine ⟨r.2, ?_⟩
      rw [List.find?_cons]
      rw [decide_eq_true hr]
      rw [← hr]
    · rw [List.map_cons] at h
      obtain ⟨b, hb⟩ := ih t (by
        rcases List.mem_cons.mp h with h1 | h1
        · exact absurd h1.symm hr
        · exact h1)
      refine ⟨b, ?_⟩
      rw [List.find?_cons]
      have : decide (r.1 = t) = false := decide_eq_false hr
      rw [this]
      exact hb

theorem map_fst_filterMap_lookup {β : Type} (rows : List (String × β)) :
    ∀ ts : List String, (∀ t ∈ ts, t ∈ rows.map Prod.fst) →
      ((ts.filterMap (fun t => (rows.find? (fun r => decide (r.1 = t))).map
        (fun r => (t, r.2)))).map Prod.fst) = ts := by
  intro ts
  induction ts with
  | nil => intro _; rfl
  | cons t ts ih =>
    intro h
    obtain ⟨b, hb⟩ := find?_fst_eq rows t (h t (List.mem_cons_self t ts))
    rw [List.filterMap_cons, hb]
    simp only [Option.map_some']
    rw [List.map_cons]
    rw [ih (fun u hu => h u (List.mem_cons_of_mem t hu))]

end CanonicalOrderLemmas

/-- C5: for any input whose destinations all belong to the canonical target
list, the Metric Engine's output rows follow the canonical destination order,
not discovery order: each canonical destination absent from the data is
omitted entirely (no row at all is emitted for it) and the remaining rows
appear in canonical-list order. -/
theorem calculateAllMetrics_canonical_order (data : List Sample)
    (_hsub : ∀ n ∈ targetNames data, n ∈ TARGET_ORDER) :
    (calculateAllMetrics data).map Prod.fst =
      TARGET_ORDER.filter (fun t => decide (t ∈ targetNames data)) := by
  rw [calculateAllMetrics]
  have havail : ∀ t ∈ TARGET_ORDER.filter
      (fun t => decide (t ∈ (groupedResults data).map Prod.fst)),
      t ∈ (groupedResults data).map Prod.fst := by
    intro t ht
    have := (List.mem_filter.mp ht).2
    exact of_decide_eq_true this
  rw [map_fst_filterMap_lookup (groupedResults data) _ havail]
  apply List.filter_congr
  intro t _
  apply decide_eq_decide.mpr
  rw [map_fst_groupedResults]
  exact mem_sortedNames

/-- Witness for C5: data containing `Fire Station` and `Automobile shop` (in
that discovery order) yields rows ordered canonically, with the six absent
canonical destinations omitted. -/
theorem calculateAllMetrics_canonical_order_witness :
    (calculateAllMetrics twoTargetData).map Prod.fst =
      ["Automobile shop", "Fire Station"] := by
  rw [calculateAllMetrics_canonical_order twoTargetData (by decide)]
  decide

section NormalizerLemmas

theorem zipWith_clamp_nonneg :
    ∀ (l l' : List ℚ), ∀ d ∈ List.zipWith (fun a b => max (b - a) 0) l l', 0 ≤ d := by
  intro l
  induction l with
  | nil => intro l' d hd; simp at hd
  | cons a l ih =>
    intro l' d hd
    cases l' with
    | nil => simp at hd
    | cons b l' =>
      rw [List.zipWith_cons_cons] at hd
      rcases List.mem_cons.mp hd with rfl | hd'
      · exact le_max_right _ _
      · exact ih l' d hd'

theorem mkTimeDeltas_nonneg : ∀ (ts : List ℚ), ∀ d ∈ mkTimeDeltas ts, 0 ≤ d := by
  intro ts d hd
  cases ts with
  | nil => simp [mkTimeDeltas] at hd
  | cons t ts =>
    rw [mkTimeDeltas] at hd
    rcases List.mem_cons.mp hd with rfl | hd'
    · exact le_refl 0
    · exact zipWith_clamp_nonneg (t :: ts) ts d hd'

theorem zipWith_mkSample_timeDelta_mem :
    ∀ (rs : List RawRow) (ds : List ℚ),
      ∀ s ∈ List.zipWith
        (fun (r : RawRow) (d : ℚ) => Sample.mk r.targetName r.x r.z r.time d) rs ds,
        s.timeDelta ∈ ds := by
  intro rs
  induction rs with
  | nil => intro ds s hs; simp at hs
  | cons r rs ih =>
    intro ds s hs
    cases ds with
    | nil => simp at hs
    | cons d ds =>
      rw [List.zipWith_cons_cons] at hs
      rcases List.mem_cons.mp hs with rfl | hs'
      · exact List.mem_cons_self d ds
      · exact List.mem_cons_of_mem d (ih ds s hs')

theorem attachDeltas_timeDelta_nonneg (rows : List RawRow) :
    ∀ s ∈ attachDeltas rows, 0 ≤ s.timeDelta := by
  intro s hs
  rw [attachDeltas] at hs
  exact mkTimeDeltas_nonneg _ _ (zipWith_mkSample_timeDelta_mem _ _ s hs)

theorem sum_map_filter_le (f : Sample → ℚ) (p : Sample → Bool) :
    ∀ l : List Sample, (∀ s ∈ l, 0 ≤ f s) →
      ((l.filter p).map f).sum ≤ (l.map f).sum := by
  intro l
  induction l with
  | nil => intro _; simp
  | cons a l ih =>
    intro h
    have hal := ih (fun s hs => h s (List.mem_cons_of_mem a hs))
    have ha := h a (List.mem_cons_self a l)
    rw [List.filter_cons]
    by_cases hp : p a = true
    · rw [if_pos hp, List.map_cons, List.map_cons, List.sum_cons, List.sum_cons]
      exact add_le_add_left hal _
    · rw [if_neg hp, List.map_cons, List.sum_cons]
      calc ((l.filter p).map f).sum ≤ (l.map f).sum := hal
        _ ≤ f a + (l.map f).sum := le_add_of_nonneg_left ha

end NormalizerLemmas

/-- C10: for every destination group cut from the Sample Normalizer's output,
the navigation time is non-negative: every per-sample time delta produced by
the normalizer is clamped to be non-negative, the orientation-time samples
are a filtered subset of the group's samples, so the orientation time never
exceeds the total time and `Navigation_Time = Total_Time - Orientation_Time`
cannot be negative. -/
theorem navigationTime_nonneg_of_normalized (rows : List RawRow) (t : String) :
    (∀ s ∈ normalize rows, 0 ≤ s.timeDelta) ∧
      orientationTime (groupFor (normalize rows) t) ≤
        totalTime (groupFor (normalize rows) t) ∧
      0 ≤ navigationTime (groupFor (normalize rows) t) := by
  have hn : ∀ s ∈ normalize rows, 0 ≤ s.timeDelta := by
    intro s hs
    exact attachDeltas_timeDelta_nonneg rows s (List.mem_of_mem_filter hs)
  have hg : ∀ s ∈ groupFor (normalize rows) t, 0 ≤ s.timeDelta := by
    intro s hs
    exact hn s (List.mem_of_mem_filter hs)
  have hle : orientationTime (groupFor (normalize rows) t) ≤
      totalTime (groupFor (normalize rows) t) :=
    sum_map_filter_le Sample.timeDelta atStart _ hg
  refine ⟨hn, hle, ?_⟩
  rw [navigationTime]
  linarith

section AggregatorLemmas

theorem colMean_append_none (xs ys : List (Option ℚ)) :
    colMean (xs ++ none :: ys) = colMean (xs ++ ys) := by
  rw [colMean, colMean, List.filterMap_append, List.filterMap_append,
    List.filterMap_cons_none rfl]

theorem filterMap_id_map_some (ys : List ℚ) : (ys.map some).filterMap id = ys := by
  rw [List.filterMap_map]
  exact List.filterMap_some ys

end AggregatorLemmas

/-- C8: the Aggregator's per-(participant, block) averaging computes, for
each metric column independently, the arithmetic mean over that column's
defined entries: a `NaN` cell of one record is excluded from that one
column's mean only — it is not treated as zero, and the record still
contributes its defined cells to every other column's mean. -/
theorem averageRow_nan_excluded_per_field (pre post : List (Column → Option ℚ))
    (r : Column → Option ℚ) (c c' : Column) (q : ℚ)
    (hc : r c = none) (hc' : r c' = some q) :
    averageRow (pre ++ r :: post) c = averageRow (pre ++ post) c ∧
      averageRow (pre ++ r :: post) c' =
        colMean ((pre.map (fun row => row c')) ++ some q :: (post.map (fun row => row c'))) ∧
      ∀ ys : List ℚ, ys ≠ [] → colMean (ys.map some) = some (ys.sum / (ys.length : ℚ)) := by
  refine ⟨?_, ?_, ?_⟩
  · rw [averageRow, averageRow, List.map_append, List.map_append, List.map_cons, hc]
    exact colMean_append_none _ _
  · rw [averageRow, List.map_append, List.map_cons, hc']
  · intro ys hys
    rw [colMean]
    simp only [filterMap_id_map_some]
    rw [if_neg (by simpa using hys)]

/-- Witness for C8: a two-row table whose second row has `NaN` orientation
time; the orientation-time mean drops only that cell, the distance mean still
counts the row, and the mean of defined cells is the arithmetic mean. -/
theorem averageRow_nan_excluded_witness :
    averageRow [rowFull, rowWithNaN] Column.orientationTime =
        averageRow [rowFull] Column.orientationTime ∧
      averageRow [rowFull, rowWithNaN] Column.distance =
        colMean (([rowFull].map (fun row => row Column.distance)) ++
          some 2 :: (([] : List (Column → Option ℚ)).map (fun row => row Column.distance))) ∧
      colMean ([(4 : ℚ), 2].map some) =
        some (([(4 : ℚ), 2]).sum / (([(4 : ℚ), 2]).length : ℚ)) :=
  have h := averageRow_nan_excluded_per_field [rowFull] [] rowWithNaN
    Column.orientationTime Column.distance 2 rfl rfl
  ⟨h.1, h.2.1, h.2.2 [4, 2] (by decide)⟩

section CorrectorLemmas

theorem find?_first_match (pb : MergedRow → Bool) :
    ∀ (pre : List MergedRow) (r : MergedRow) (post : List MergedRow),
      (∀ q ∈ pre, pb q = false) → pb r = true →
      (pre ++ r :: post).find? pb = some r := by
  intro pre
  induction pre with
  | nil =>
    intro r post _ hr
    rw [List.nil_append]
    exact List.find?_cons_of_pos post hr
  | cons a pre ih =>
    intro r post hpre hr
    rw [List.cons_append]
    rw [List.find?_cons_of_neg _ (by simp [hpre a (List.mem_cons_self a pre)])]
    exact ih r post (fun q hq => hpre q (List.mem_cons_of_mem a hq)) hr

theorem map_ite_no_match (pb : MergedRow → Bool) (f : MergedRow → MergedRow) :
    ∀ l : List MergedRow, (∀ q ∈ l, pb q = false) →
      l.map (fun q => if pb q then f q else q) = l := by
  intro l
  induction l with
  | nil => intro _; rfl
  | cons a l ih =>
    intro h
    rw [List.map_cons, if_neg (by simp [h a (List.mem_cons_self a l)]),
      ih (fun q hq => h q (List.mem_cons_of_mem a hq))]

end CorrectorLemmas

/-- C9: applying the corrector to a (participant, block, destination, field)
key that matches exactly one record sets that one field of the matching
record to `NaN` and, when the field is `Orientation_Time`, also decrements
that record's `Total_Time` by the nulled orientation-time value; every other
field of the record and every other record of the table are left
unchanged. -/
theorem fixErroneousData_single_field (p t : String) (b : ℕ) (col : Column)
    (pre post : List MergedRow) (r : MergedRow)
    (hr : keyMatches p b t r = true)
    (hpre : ∀ q ∈ pre, keyMatches p b t q = false)
    (hpost : ∀ q ∈ post, keyMatches p b t q = false) :
    ∃ r' : MergedRow,
      fixErroneousData (pre ++ r :: post) p b t col = pre ++ r' :: post ∧
      r'.participant = r.participant ∧ r'.blockNum = r.blockNum ∧
      r'.targetName = r.targetName ∧
      r'.vals col = none ∧
      (col = Column.orientationTime →
        r'.vals Column.totalTime =
          osub (r.vals Column.totalTime) (r.vals Column.orientationTime)) ∧
      (∀ c : Column, c ≠ col →
        ¬(col = Column.orientationTime ∧ c = Column.totalTime) →
        r'.vals c = r.vals c) := by
  have hany : (pre ++ r :: post).any (keyMatches p b t) = true := by
    rw [List.any_eq_true]
    exact ⟨r, List.mem_append_right _ (List.mem_cons_self r post), hr⟩
  have hfind : (pre ++ r :: post).find? (keyMatches p b t) = some r :=
    find?_first_match _ pre r post hpre hr
  set r1 : MergedRow :=
    if col = Column.orientationTime then
      { r with
          vals := Function.update r.vals Column.totalTime
            (osub (r.vals Column.totalTime) (r.vals Column.orientationTime)) }
    else r with hr1
  refine ⟨{ r1 with vals := Function.update r1.vals col none }, ?_, ?_, ?_, ?_, ?_, ?_, ?_⟩
  · rw [fixErroneousData, if_pos hany, hfind, Option.some_bind, List.map_append,
      List.map_cons, if_pos hr, map_ite_no_match _ _ pre hpre,
      map_ite_no_match _ _ post hpost]
  · by_cases hcol : col = Column.orientationTime <;> simp [hr1, hcol]
  · by_cases hcol : col = Column.orientationTime <;> simp [hr1, hcol]
  · by_cases hcol : col = Column.orientationTime <;> simp [hr1, hcol]
  · exact Function.update_same col none r1.vals
  · intro hcol
    have hne : Column.totalTime ≠ col := by
      rw [hcol]
      intro hx
      cases hx
    show Function.update r1.vals col none Column.totalTime =
      osub (r.vals Column.totalTime) (r.vals Column.orientationTime)
    rw [Function.update_noteq hne none r1.vals, hr1, if_pos hcol]
    exact Function.update_same Column.totalTime _ r.vals
  · intro c hc hnot
    show Function.update r1.vals col none c = r.vals c
    rw [Function.update_noteq hc none r1.vals, hr1]
    by_cases hcol : col = Column.orientationTime
    · rw [if_pos hcol]
      have hct : c ≠ Column.totalTime := fun h => hnot ⟨hcol, h⟩
      exact Function.update_noteq hct _ r.vals
    · rw [if_neg hcol]

/-- Witness for C9: a two-row merged table where only the `BNC39` row matches
the key and the fixed column is `Orientation_Time`. -/
theorem fixErroneousData_single_field_witness :
    ∃ r' : MergedRow,
      fixErroneousData ([mergedRowB] ++ mergedRowA :: []) "BNC39" 1 "Pawn Shop"
          Column.orientationTime = [mergedRowB] ++ r' :: [] ∧
      r'.participant = mergedRowA.participant ∧ r'.blockNum = mergedRowA.blockNum ∧
      r'.targetName = mergedRowA.targetName ∧
      r'.vals Column.orientationTime = none ∧
      (Column.orientationTime = Column.orientationTime →
        r'.vals Column.totalTime =
          osub (mergedRowA.vals Column.totalTime)
            (mergedRowA.vals Column.orientationTime)) ∧
      (∀ c : Column, c ≠ Column.orientationTime →
        ¬(Column.orientationTime = Column.orientationTime ∧ c = Column.totalTime) →
        r'.vals c = mergedRowA.vals c) :=
  fixErroneousData_single_field "BNC39" "Pawn Shop" 1 Column.orientationTime
    [mergedRowB] [] mergedRowA (by decide)
    (by
      intro q hq
      rcases List.mem_cons.mp hq with rfl | hq'
      · decide
      · exact absurd hq' (List.not_mem_nil q))
    (fun q hq => absurd hq (List.not_mem_nil q))

end NavCity
